import Mathlib

/-!
# Verification of the AI-Governance orchestrator (`src/backend/agents/orchestrator.py`)

Shallow embedding of the governance orchestrator: the execution planner
(`_create_execution_plan`), the level executor (`_execute_tasks`,
`_execute_single_task`, `_execute_parallel_tasks`), the result aggregator
(`_aggregate_results`) and the workflow lifecycle (`create_workflow`,
`execute_workflow`, `cancel_workflow`, `_generate_workflow_id`).

Modelling conventions:
* Python dicts with string keys become association lists with unique keys in
  insertion order (`dictGet` / `dictSet` / `dictRemove` mirror `d[k]`,
  `d[k] = v`, `del d[k]`; `dictUpdate` mirrors `d.update(d2)`).
* Exceptions become `Except String`; an uncaught Python exception is `.error`.
* Wall-clock timestamps (`datetime.now()`) become an explicit `now : Nat`
  parameter (the integer `timestamp()` used in `_generate_workflow_id`).
* The opaque `input_data` / `system_context` payload is folded into the agent
  behaviour: an agent is a function from the `previous_results` sub-dict it is
  handed (or `none` when the task has no dependencies, since Python only adds
  the `previous_results` key when `task.depends_on` is truthy) to an
  `Except String` result dict, exactly the interface `_call_agent_assessment`
  is used through.  Thread-pool scheduling in `_execute_parallel_tasks` is
  modelled as the submission-order fold; only the key set of the collected
  dict is claim-relevant and it is order-independent.
* Floating-point fields (`confidence_score` average, timings) and log-only
  strings (`assessment_summary`, metadata counters) are not modelled; no claim
  mentions them.
-/

namespace Governance

/-- `AgentPriority` enum: CRITICAL = 1, HIGH = 2, MEDIUM = 3, LOW = 4. -/
inductive AgentPriority where
  | critical
  | high
  | medium
  | low
deriving DecidableEq

/-- `AgentPriority.value` in Python (`CRITICAL = 1` … `LOW = 4`). -/
def AgentPriority.val : AgentPriority → Nat
  | .critical => 1
  | .high => 2
  | .medium => 3
  | .low => 4

/-- `AgentTask` dataclass.  `input_data` (the shared system context) is folded
into the agent behaviour, see module docstring.  Python's default
`depends_on = None` is falsy exactly like `[]`, and the code only tests
truthiness and iterates, so `[]` models `None` faithfully. -/
structure AgentTask where
  agent_type : String
  priority : AgentPriority
  depends_on : List String := []
  timeout : Nat := 300
  retry_count : Nat := 0
  max_retries : Nat := 2
deriving DecidableEq

/-- `assessment_data` sub-dict of an agent result; `Option` models key
presence (`'risk_level' in assessment` etc.). -/
structure AssessmentData where
  risk_level : Option String := none
  confidence_score : Option Int := none
  recommendations : Option (List String) := none
  compliance_status : Option String := none
deriving DecidableEq

/-- A per-agent result dict (`{'status': ..., 'error': ..., 'agent_type': ...,
'assessment_data': ...}`); absent keys are `none`. -/
structure ResultDict where
  status : String
  error : Option String := none
  agent_type : Option String := none
  assessment_data : Option AssessmentData := none
deriving DecidableEq

/-- An agent's callable capability as used by `_execute_single_task`: given
the optional `previous_results` payload (present iff the task has
dependencies; `dictGet` models `previous_results.get(dep)`), either return a
result dict or raise (`.error msg`, the `str(e)` of the exception). -/
def AgentBehavior : Type :=
  Option (List (String × Option ResultDict)) → Except String ResultDict

/-- The accumulated `results` mapping `agent_type → result dict`. -/
abbrev Results : Type := List (String × ResultDict)

/-- Python `d.get(k)` / `d[k]` lookup on an insertion-ordered dict. -/
def dictGet {α : Type} (d : List (String × α)) (k : String) : Option α :=
  match d with
  | [] => none
  | (k', v) :: rest => if k' = k then some v else dictGet rest k

/-- Python `d[k] = v`: overwrite in place if the key exists, else append. -/
def dictSet {α : Type} (d : List (String × α)) (k : String) (v : α) :
    List (String × α) :=
  match d with
  | [] => [(k, v)]
  | (k', v') :: rest =>
    if k' = k then (k, v) :: rest else (k', v') :: dictSet rest k v

/-- Python `del d[k]`. -/
def dictRemove {α : Type} (d : List (String × α)) (k : String) :
    List (String × α) :=
  match d with
  | [] => []
  | (k', v') :: rest =>
    if k' = k then rest else (k', v') :: dictRemove rest k

/-- Python `d.update(d2)`. -/
def dictUpdate {α : Type} (d d' : List (String × α)) : List (String × α) :=
  d'.foldl (fun acc p => dictSet acc p.1 p.2) d

/-- Readiness test of `_create_execution_plan`:
`not task.depends_on or all(dep in completed_agents for dep in task.depends_on)`. -/
def taskReady (completed : List String) (t : AgentTask) : Bool :=
  t.depends_on.isEmpty || t.depends_on.all (fun d => completed.contains d)

/-- `current_level.sort(key=lambda x: x.priority.value)`: Python's stable
ascending sort; insertion sort with `≤` on the key is the same stable sort. -/
def sortLevel (level : List AgentTask) : List AgentTask :=
  List.insertionSort (fun a b => a.priority.val ≤ b.priority.val) level

/-- The `while remaining_tasks:` loop of `_create_execution_plan`.  Each
iteration either moves the ready tasks (iterating over a copy and removing
each ready task is the partition of `remaining` by readiness) into one level,
or — when no task is ready — dumps all of `remaining` as one final fallback
level (the returned flag records that this degraded branch fired).  Each
iteration removes at least one task, so `fuel = remaining.length` makes the
artificial fuel-exhaustion branch unreachable (see
`planLoop_join_perm`, which shows no task is ever dropped at that fuel). -/
def planLoop : Nat → List AgentTask → List String →
    List (List AgentTask) × Bool
  | _, [], _ => ([], false)
  | 0, _ :: _, _ => ([], false)
  | fuel + 1, t :: ts, completed =>
    let remaining := t :: ts
    let current := remaining.filter (taskReady completed)
    if current.isEmpty then
      ([sortLevel remaining], true)
    else
      let rest := remaining.filter (fun u => ! taskReady completed u)
      let lvl := sortLevel current
      let next := planLoop fuel rest (completed ++ lvl.map (fun u => u.agent_type))
      (lvl :: next.1, next.2)

/-- `_create_execution_plan(tasks)`. -/
def createExecutionPlan (tasks : List AgentTask) : List (List AgentTask) :=
  (planLoop tasks.length tasks []).1

/-- Whether the degraded "circular or invalid dependencies" fallback fired
while planning `tasks`. -/
def planUsedFallback (tasks : List AgentTask) : Bool :=
  (planLoop tasks.length tasks []).2

/-- The terminal failure dict `{'status': 'failed', 'error': str(e),
'agent_type': task.agent_type}` built by `_execute_single_task` and
`_execute_parallel_tasks`. -/
def failedResult (e agentType : String) : ResultDict :=
  { status := "failed", error := some e, agent_type := some agentType }

/-- The retry recursion of `_execute_single_task`, indexed by the remaining
retry budget `max_retries - retry_count`.  Python retries while
`retry_count < max_retries`, i.e. while the budget is non-zero, incrementing
`retry_count` (decrementing the budget) each time.  Returns the final result
dict together with the number of agent invocations performed.  The agent
call is deterministic in the model, so every retry observes the same
`callResult`. -/
def attemptLoopAux (callResult : Except String ResultDict) (agentType : String) :
    Nat → ResultDict × Nat
  | 0 =>
    match callResult with
    | .ok r => (r, 1)
    | .error e => (failedResult e agentType, 1)
  | budget + 1 =>
    match callResult with
    | .ok r => (r, 1)
    | .error e =>
      let next := attemptLoopAux (.error e) agentType budget
      (next.1, next.2 + 1)

/-- The try/retry/except body of `_execute_single_task` for a task with the
given `retry_count` and `max_retries` fields (remaining budget
`max_retries - retry_count`). -/
def executeSingleTaskAttempts (callResult : Except String ResultDict)
    (agentType : String) (retry_count max_retries : Nat) : ResultDict × Nat :=
  attemptLoopAux callResult agentType (max_retries - retry_count)

/-- The `previous_results` payload handed to the agent: absent (`none`) when
`task.depends_on` is falsy, else `{dep: previous_results.get(dep) for dep in
task.depends_on}`. -/
def mkPrevInput (task : AgentTask) (prev : Results) :
    Option (List (String × Option ResultDict)) :=
  if task.depends_on.isEmpty then none
  else some (task.depends_on.map (fun d => (d, dictGet prev d)))

/-- `_execute_single_task(task, previous_results)`.  The registry lookup
`self.agents[task.agent_type]` happens before the `try`, so a missing agent
raises `KeyError` out of the function; everything the agent capability raises
is caught and converted (after retries) to a `failed` result dict.  Returns
the result dict and the number of agent invocations. -/
def executeSingleTask (agents : List (String × AgentBehavior))
    (task : AgentTask) (prev : Results) : Except String (ResultDict × Nat) :=
  match dictGet agents task.agent_type with
  | none => .error ("KeyError: " ++ task.agent_type)
  | some beh =>
    .ok (executeSingleTaskAttempts (beh (mkPrevInput task prev))
      task.agent_type task.retry_count task.max_retries)

/-- Result recorded for one worker-pool task in `_execute_parallel_tasks`:
`future.result()` re-raises anything `_execute_single_task` raised, and the
surrounding `except` converts it into a `failed` dict. -/
def parallelTaskResult (agents : List (String × AgentBehavior))
    (prev : Results) (task : AgentTask) : ResultDict :=
  match executeSingleTask agents task prev with
  | .ok r => r.1
  | .error e => failedResult e task.agent_type

/-- `_execute_parallel_tasks(tasks, previous_results)`: collect every task's
result into a fresh dict keyed by `agent_type` (submission order models the
nondeterministic completion order; the key set is order-independent). -/
def executeParallelTasks (agents : List (String × AgentBehavior))
    (tasks : List AgentTask) (prev : Results) : Results :=
  tasks.foldl
    (fun acc task => dictSet acc task.agent_type (parallelTaskResult agents prev task))
    []

/-- The per-level loop of `_execute_tasks` starting from accumulated
`results`: a single-task level runs inline (so a `KeyError` from the registry
lookup propagates), a multi-task level goes through the worker pool (where
everything is caught).  An empty level would make Python's
`max(task.timeout for task in tasks)` raise `ValueError`; plans never contain
one (`plan_levels_ne_nil`). -/
def executeTasksFrom (agents : List (String × AgentBehavior)) :
    List (List AgentTask) → Results → Except String Results
  | [], results => .ok results
  | level :: rest, results =>
    match level with
    | [task] =>
      match executeSingleTask agents task results with
      | .error e => .error e
      | .ok r => executeTasksFrom agents rest (dictSet results task.agent_type r.1)
    | [] => .error "ValueError: max() arg is an empty sequence"
    | _ =>
      executeTasksFrom agents rest
        (dictUpdate results (executeParallelTasks agents level results))

/-- `_execute_tasks(execution_plan, system_context)`. -/
def executeTasks (agents : List (String × AgentBehavior))
    (plan : List (List AgentTask)) : Except String Results :=
  executeTasksFrom agents plan []

/-- `WorkflowType` enum. -/
inductive WorkflowType where
  | comprehensive_assessment
  | risk_focused
  | compliance_check
  | bias_audit
  | rapid_screening
deriving DecidableEq

/-- `WorkflowType.value`. -/
def WorkflowType.val : WorkflowType → String
  | .comprehensive_assessment => "comprehensive_assessment"
  | .risk_focused => "risk_focused"
  | .compliance_check => "compliance_check"
  | .bias_audit => "bias_audit"
  | .rapid_screening => "rapid_screening"

/-- The dict returned by `_aggregate_results`; `Option` fields model key
presence (the degenerate no-success branch only has `overall_status` and
`message`).  The float `confidence_score` average is not modelled. -/
structure AggregatedAssessment where
  overall_status : String
  message : Option String := none
  overall_risk_level : Option String := none
  overall_compliance : Option String := none
  recommendations : Option (List String) := none
  agents_consulted : Option (List String) := none
  failed_agents : Option (List String) := none
  workflow_type : Option String := none
deriving DecidableEq

/-- `risk_priority = {'critical': 4, 'high': 3, 'medium': 2, 'low': 1}` with
`.get(x, 0)` for unknown values. -/
def riskPriorityRank (r : String) : Nat :=
  if r = "critical" then 4
  else if r = "high" then 3
  else if r = "medium" then 2
  else if r = "low" then 1
  else 0

/-- One comparison step of Python's `max(..., key=...)`: the champion is
replaced only on a strictly greater key. -/
def pyMaxStep (best y : String) : String :=
  if riskPriorityRank best < riskPriorityRank y then y else best

/-- Python `max(risk_levels, key=lambda x: risk_priority.get(x, 0))`: scan
left to right, so the first maximal element wins. -/
def pyMaxRisk : List String → Option String
  | [] => none
  | x :: xs => some (xs.foldl pyMaxStep x)

/-- `successful_results = {k: v for k, v in agent_results.items() if
v.get('status') == 'completed'}`. -/
def successfulResults (agent_results : Results) : Results :=
  agent_results.filter (fun p => p.2.status == "completed")

/-- The `risk_levels` list collected by the aggregation loop (insertion
order, one entry per successful result whose assessment has the key). -/
def collectRiskLevels (succ : Results) : List String :=
  succ.filterMap (fun p => p.2.assessment_data.bind (fun a => a.risk_level))

/-- The `compliance_statuses` list collected by the aggregation loop. -/
def collectCompliance (succ : Results) : List String :=
  succ.filterMap (fun p => p.2.assessment_data.bind (fun a => a.compliance_status))

/-- The flattened `all_recommendations` list collected by the aggregation
loop. -/
def collectRecommendations (succ : Results) : List String :=
  (succ.filterMap (fun p => p.2.assessment_data.bind (fun a => a.recommendations))).flatten

/-- The `overall_compliance` cascade of `_aggregate_results`. -/
def overallCompliance (statuses : List String) : String :=
  if statuses.isEmpty then "unknown"
  else if statuses.contains "non_compliant" then "non_compliant"
  else if statuses.contains "partial" then "partial"
  else if statuses.all (fun s => s == "compliant") then "compliant"
  else "unknown"

/-- `_aggregate_results(agent_results, workflow_type)`.  Python's
`list(set(all_recommendations))` has unspecified order; it is modelled as
first-occurrence deduplication. -/
def aggregateResults (agent_results : Results) (wt : WorkflowType) :
    AggregatedAssessment :=
  let succ := successfulResults agent_results
  if succ.isEmpty then
    { overall_status := "failed", message := some "No agents completed successfully" }
  else
    let risk_levels := collectRiskLevels succ
    let overall_risk :=
      match pyMaxRisk risk_levels with
      | none => "low"
      | some r => r
    { overall_status := "completed"
      overall_risk_level := some overall_risk
      overall_compliance := some (overallCompliance (collectCompliance succ))
      recommendations := some (collectRecommendations succ).eraseDups
      agents_consulted := some (succ.map (fun p => p.1))
      failed_agents :=
        some ((agent_results.filter (fun p => ! (p.2.status == "completed"))).map
          (fun p => p.1))
      workflow_type := some wt.val }

/-- The workflow dict stored in `active_workflows`.  The `system_context`
payload is folded into the agent behaviours, and the `results` dict and
`metadata` counters are never consulted by the execution path (the counters
are in fact never updated after creation), so they are not modelled;
timestamps are wall-clock and likewise unmodelled. -/
structure Workflow where
  id : String
  wtype : WorkflowType
  tasks : List AgentTask
  status : String
  error : Option String := none

/-- The `WorkflowResult` dataclass (timestamps and the float metadata are
wall-clock and not modelled). -/
structure WorkflowResult where
  workflow_id : String
  workflow_type : WorkflowType
  status : String
  agent_results : Results
  aggregated_assessment : AggregatedAssessment

/-- Orchestrator state: the agent registry, the `active_workflows` dict and
the `workflow_history` list. -/
structure OrchState where
  agents : List (String × AgentBehavior)
  active_workflows : List (String × Workflow)
  workflow_history : List WorkflowResult

/-- `_generate_workflow_id`: `f"workflow_{timestamp}_{len(self.active_workflows)}"`
with `timestamp = int(datetime.now().timestamp())` passed in as `now`. -/
def generateWorkflowId (now : Nat) (st : OrchState) : String :=
  "workflow_" ++ toString now ++ "_" ++ toString st.active_workflows.length

/-- One custom-list task: `AgentTask(agent_type=a, priority=HIGH,
input_data=system_context)` — remaining fields keep their dataclass
defaults (`depends_on=None`, `timeout=300`, `retry_count=0`, `max_retries=2`). -/
def customTask (a : String) : AgentTask :=
  { agent_type := a, priority := AgentPriority.high }

/-- The fixed per-type task templates of `_create_workflow_tasks`. -/
def templateTasks : WorkflowType → List AgentTask
  | .comprehensive_assessment =>
    [ { agent_type := "risk_agent", priority := .critical },
      { agent_type := "bias_agent", priority := .high, depends_on := ["risk_agent"] },
      { agent_type := "policy_agent", priority := .high, depends_on := ["risk_agent"] },
      { agent_type := "audit_agent", priority := .medium,
        depends_on := ["risk_agent", "bias_agent", "policy_agent"] },
      { agent_type := "liability_protection_agent", priority := .low,
        depends_on := ["audit_agent"] } ]
  | .risk_focused =>
    [ { agent_type := "risk_agent", priority := .critical },
      { agent_type := "liability_protection_agent", priority := .high,
        depends_on := ["risk_agent"] } ]
  | .compliance_check =>
    [ { agent_type := "policy_agent", priority := .critical },
      { agent_type := "audit_agent", priority := .high, depends_on := ["policy_agent"] } ]
  | .bias_audit =>
    [ { agent_type := "bias_agent", priority := .critical },
      { agent_type := "audit_agent", priority := .high, depends_on := ["bias_agent"] } ]
  | .rapid_screening =>
    [ { agent_type := "risk_agent", priority := .critical } ]

/-- Python truthiness of the `custom_agents: List[str] = None` parameter:
`if custom_agents:` is false for both `None` and `[]`. -/
def customTruthy : Option (List String) → Bool
  | none => false
  | some l => ! l.isEmpty

/-- `_create_workflow_tasks(workflow_type, system_context, custom_agents)`:
either one HIGH-priority dependency-free task per registered custom agent
(unregistered names silently skipped), or the per-type template; the final
comprehension re-filters against the registry either way. -/
def createWorkflowTasks (agents : List (String × AgentBehavior))
    (wt : WorkflowType) (custom_agents : Option (List String)) : List AgentTask :=
  let tasks :=
    if customTruthy custom_agents then
      ((custom_agents.getD []).filter (fun a => (dictGet agents a).isSome)).map customTask
    else
      templateTasks wt
  tasks.filter (fun t => (dictGet agents t.agent_type).isSome)

/-- `create_workflow(workflow_type, system_context, custom_agents)`: generate
an id, build the task list, store the workflow with status `created` in
`active_workflows`, return the id. -/
def createWorkflow (st : OrchState) (wt : WorkflowType)
    (custom_agents : Option (List String)) (now : Nat) : String × OrchState :=
  let wid := generateWorkflowId now st
  let tasks := createWorkflowTasks st.agents wt custom_agents
  let wf : Workflow := { id := wid, wtype := wt, tasks := tasks, status := "created" }
  (wid, { st with active_workflows := dictSet st.active_workflows wid wf })

/-- `cancel_workflow(workflow_id)`: drop an active workflow (the transient
`cancelled` status write is immediately followed by the `del`). -/
def cancelWorkflow (st : OrchState) (wid : String) : Bool × OrchState :=
  if (dictGet st.active_workflows wid).isSome then
    (true, { st with active_workflows := dictRemove st.active_workflows wid })
  else
    (false, st)

/-- `execute_workflow(workflow_id)`.  A missing id raises `ValueError` before
any mutation.  Otherwise the status is set to `running` and the
plan/execute/aggregate body runs inside `try`: on success the workflow is
marked `completed`, the result is appended to `workflow_history` and the
workflow deleted from `active_workflows`; on an exception `e` the workflow's
status becomes `failed` with `error = str(e)` and `e` is re-raised — the
except branch performs no registry/history move.  The audit-log call
(`_log_workflow_completion`) only touches the external database and is not
modelled. -/
def executeWorkflow (st : OrchState) (wid : String) :
    Except String WorkflowResult × OrchState :=
  match dictGet st.active_workflows wid with
  | none => (.error ("ValueError: Workflow " ++ wid ++ " not found"), st)
  | some wf =>
    let wf1 : Workflow := { wf with status := "running" }
    let st1 : OrchState :=
      { st with active_workflows := dictSet st.active_workflows wid wf1 }
    match executeTasks st1.agents (createExecutionPlan wf1.tasks) with
    | .ok results =>
      let agg := aggregateResults results wf1.wtype
      let wres : WorkflowResult :=
        { workflow_id := wid, workflow_type := wf1.wtype, status := "completed",
          agent_results := results, aggregated_assessment := agg }
      (.ok wres,
        { st1 with
          active_workflows := dictRemove st1.active_workflows wid,
          workflow_history := st1.workflow_history ++ [wres] })
    | .error e =>
      let wf2 : Workflow := { wf1 with status := "failed", error := some e }
      (.error e,
        { st1 with active_workflows := dictSet st1.active_workflows wid wf2 })

/-! ## Generic list and dict lemmas -/

theorem filter_partition_perm {α : Type} (p : α → Bool) (l : List α) :
    List.Perm (l.filter p ++ l.filter (fun x => ! p x)) l := by
  induction l with
  | nil => simp
  | cons a l ih =>
    by_cases h : p a
    · simpa [List.filter_cons, h] using ih.cons a
    · simp only [List.filter_cons, h, Bool.not_false, if_neg, Bool.false_eq_true,
        not_false_iff, if_pos]
      exact List.perm_middle.trans (ih.cons a)

theorem dictGet_dictSet_self {α : Type} (d : List (String × α)) (k : String) (v : α) :
    dictGet (dictSet d k v) k = some v := by
  induction d with
  | nil => simp [dictSet, dictGet]
  | cons p d ih =>
    obtain ⟨k', v'⟩ := p
    by_cases h : k' = k
    · simp [dictSet, dictGet, h]
    · simp [dictSet, dictGet, h, ih]

theorem dictGet_dictSet_ne {α : Type} (d : List (String × α)) (k k' : String) (v : α)
    (h : k ≠ k') : dictGet (dictSet d k v) k' = dictGet d k' := by
  induction d with
  | nil => simp [dictSet, dictGet, h]
  | cons p d ih =>
    obtain ⟨k₀, v₀⟩ := p
    by_cases h0 : k₀ = k
    · simp [dictSet, dictGet, h0, h]
    · simp only [dictSet, if_neg h0, dictGet]
      by_cases h1 : k₀ = k'
      · simp [h1]
      · simp [h1, ih]

theorem dictSet_of_get_none {α : Type} (d : List (String × α)) (k : String) (v : α)
    (h : dictGet d k = none) : dictSet d k v = d ++ [(k, v)] := by
  induction d with
  | nil => simp [dictSet]
  | cons p d ih =>
    obtain ⟨k₀, v₀⟩ := p
    by_cases h0 : k₀ = k
    · simp [dictGet, h0] at h
    · simp only [dictGet, if_neg h0] at h
      simp [dictSet, h0, ih h]

theorem dictGet_append_of_none {α : Type} (d d' : List (String × α)) (k : String)
    (h : dictGet d k = none) : dictGet (d ++ d') k = dictGet d' k := by
  induction d with
  | nil => simp
  | cons p d ih =>
    obtain ⟨k₀, v₀⟩ := p
    by_cases h0 : k₀ = k
    · simp [dictGet, h0] at h
    · simp only [dictGet, if_neg h0] at h
      simp [dictGet, h0, ih h]

/-! ## Execution-planner lemmas -/

theorem sortLevel_perm (l : List AgentTask) : List.Perm (sortLevel l) l :=
  List.perm_insertionSort _ l

theorem mem_sortLevel {l : List AgentTask} {t : AgentTask} :
    t ∈ sortLevel l ↔ t ∈ l :=
  (sortLevel_perm l).mem_iff

theorem sortLevel_ne_nil {l : List AgentTask} (h : l ≠ []) : sortLevel l ≠ [] := by
  intro hc
  apply h
  have hlen := (sortLevel_perm l).length_eq
  rw [hc] at hlen
  exact List.length_eq_zero.mp hlen.symm

/-- If a task is ready, each of its dependencies is already completed. -/
theorem taskReady_dep_mem {completed : List String} {t : AgentTask}
    (h : taskReady completed t = true) {d : String} (hd : d ∈ t.depends_on) :
    d ∈ completed := by
  simp only [taskReady, Bool.or_eq_true, List.isEmpty_eq_true, List.all_eq_true] at h
  rcases h with h | h
  · rw [h] at hd
    cases hd
  · simpa using h d hd

/-- In the non-fallback branch the unready remainder is strictly shorter. -/
theorem filter_not_ready_length_lt {completed : List String}
    {remaining : List AgentTask}
    (h : ¬ (remaining.filter (taskReady completed)).isEmpty = true) :
    (remaining.filter (fun u => ! taskReady completed u)).length < remaining.length := by
  have hlen := List.length_eq_length_filter_add (l := remaining) (taskReady completed)
  have hpos : 0 < (remaining.filter (taskReady completed)).length := by
    have : remaining.filter (taskReady completed) ≠ [] := by
      simpa [List.isEmpty_iff] using h
    exact List.length_pos.mpr this
  omega

/-- Every task of the input ends up in exactly one level: the concatenation
of the produced levels is a permutation of `remaining` (for sufficient fuel,
in particular `fuel = remaining.length`). -/
theorem planLoop_flatten_perm : ∀ (fuel : Nat) (remaining : List AgentTask)
    (completed : List String), remaining.length ≤ fuel →
    List.Perm ((planLoop fuel remaining completed).1).flatten remaining := by
  intro fuel
  induction fuel with
  | zero =>
    intro remaining completed h
    match remaining with
    | [] => simp [planLoop]
    | t :: ts => simp at h
  | succ fuel ih =>
    intro remaining completed h
    match remaining with
    | [] => simp [planLoop]
    | t :: ts =>
      simp only [planLoop]
      by_cases hcur : ((t :: ts).filter (taskReady completed)).isEmpty = true
      · rw [if_pos hcur]
        simpa using sortLevel_perm (t :: ts)
      · rw [if_neg hcur]
        simp only [List.flatten_cons]
        have hrest : ((t :: ts).filter (fun u => ! taskReady completed u)).length ≤ fuel := by
          have := filter_not_ready_length_lt hcur
          have hlt : (t :: ts).length ≤ fuel + 1 := h
          omega
        refine ((sortLevel_perm _).append (ih _ _ hrest)).trans ?_
        exact filter_partition_perm (taskReady completed) (t :: ts)

/-- The planner produces at most one level per input task (each `while`
iteration removes at least one task). -/
theorem planLoop_length_le : ∀ (fuel : Nat) (remaining : List AgentTask)
    (completed : List String),
    ((planLoop fuel remaining completed).1).length ≤ remaining.length := by
  intro fuel
  induction fuel with
  | zero =>
    intro remaining completed
    match remaining with
    | [] => simp [planLoop]
    | t :: ts => simp [planLoop]
  | succ fuel ih =>
    intro remaining completed
    match remaining with
    | [] => simp [planLoop]
    | t :: ts =>
      simp only [planLoop]
      by_cases hcur : ((t :: ts).filter (taskReady completed)).isEmpty = true
      · rw [if_pos hcur]
        simp
      · rw [if_neg hcur]
        simp only [List.length_cons]
        have h1 := ih ((t :: ts).filter (fun u => ! taskReady completed u))
          (completed ++ (sortLevel ((t :: ts).filter (taskReady completed))).map
            (fun u => u.agent_type))
        have h2 := filter_not_ready_length_lt hcur
        have h3 : (t :: ts).length = ts.length + 1 := rfl
        omega

/-- No level of a plan is empty. -/
theorem planLoop_levels_ne_nil : ∀ (fuel : Nat) (remaining : List AgentTask)
    (completed : List String) (lvl : List AgentTask),
    lvl ∈ (planLoop fuel remaining completed).1 → lvl ≠ [] := by
  intro fuel
  induction fuel with
  | zero =>
    intro remaining completed lvl hm
    match remaining with
    | [] => simp [planLoop] at hm
    | t :: ts => simp [planLoop] at hm
  | succ fuel ih =>
    intro remaining completed lvl hm
    match remaining with
    | [] => simp [planLoop] at hm
    | t :: ts =>
      simp only [planLoop] at hm
      by_cases hcur : ((t :: ts).filter (taskReady completed)).isEmpty = true
      · rw [if_pos hcur] at hm
        simp only [List.mem_singleton] at hm
        subst hm
        exact sortLevel_ne_nil (by simp)
      · rw [if_neg hcur] at hm
        simp only [List.mem_cons] at hm
        rcases hm with rfl | hm
        · exact sortLevel_ne_nil (by simpa [List.isEmpty_iff] using hcur)
        · exact ih _ _ _ hm

/-- Dependency discipline of a level list: every task of each level depends
only on agent names completed before that level. -/
def levelsOrdered (completed : List String) : List (List AgentTask) → Prop
  | [] => True
  | lvl :: rest =>
    (∀ t ∈ lvl, ∀ d ∈ t.depends_on, d ∈ completed) ∧
    levelsOrdered (completed ++ lvl.map (fun u => u.agent_type)) rest

/-- When the degraded fallback never fires, the planner's output satisfies
the dependency discipline. -/
theorem planLoop_levelsOrdered : ∀ (fuel : Nat) (remaining : List AgentTask)
    (completed : List String),
    (planLoop fuel remaining completed).2 = false →
    levelsOrdered completed (planLoop fuel remaining completed).1 := by
  intro fuel
  induction fuel with
  | zero =>
    intro remaining completed hfb
    match remaining with
    | [] => simp [planLoop, levelsOrdered]
    | t :: ts => simp [planLoop, levelsOrdered]
  | succ fuel ih =>
    intro remaining completed hfb
    match remaining with
    | [] => simp [planLoop, levelsOrdered]
    | t :: ts =>
      simp only [planLoop] at hfb ⊢
      by_cases hcur : ((t :: ts).filter (taskReady completed)).isEmpty = true
      · rw [if_pos hcur] at hfb
        simp at hfb
      · rw [if_neg hcur] at hfb ⊢
        simp only at hfb ⊢
        refine ⟨?_, ih _ _ hfb⟩
        intro u hu d hd
        have hu' : u ∈ (t :: ts).filter (taskReady completed) := mem_sortLevel.mp hu
        have hready : taskReady completed u = true := (List.mem_filter.mp hu').2
        exact taskReady_dep_mem hready hd

/-- Index form of `levelsOrdered`: a dependency of a task in level `i` is
either already completed at entry or the agent name of a task in some level
`j < i`. -/
theorem levelsOrdered_get : ∀ (Ls : List (List AgentTask)) (completed : List String),
    levelsOrdered completed Ls →
    ∀ (i : Nat) (hi : i < Ls.length) (t : AgentTask), t ∈ Ls.get ⟨i, hi⟩ →
    ∀ d ∈ t.depends_on,
      d ∈ completed ∨
      ∃ (j : Nat) (hj : j < Ls.length), j < i ∧
        ∃ u ∈ Ls.get ⟨j, hj⟩, u.agent_type = d := by
  intro Ls
  induction Ls with
  | nil =>
    intro completed _ i hi
    simp at hi
  | cons lvl rest ih =>
    intro completed h i hi t ht d hd
    match i with
    | 0 =>
      exact Or.inl (h.1 t ht d hd)
    | i' + 1 =>
      have hi' : i' < rest.length := by simpa using hi
      have step := ih (completed ++ lvl.map (fun u => u.agent_type)) h.2 i' hi' t ht d hd
      rcases step with hc | ⟨j, hj, hji, u, hu, hud⟩
      · rcases List.mem_append.mp hc with h1 | h2
        · exact Or.inl h1
        · right
          rcases List.mem_map.mp h2 with ⟨u, hu, hud⟩
          exact ⟨0, Nat.succ_pos _, Nat.succ_pos _, u, hu, hud⟩
      · right
        exact ⟨j + 1, Nat.succ_lt_succ hj, Nat.succ_lt_succ hji, u, hu, hud⟩

/-- C1: in a plan produced without the degraded fallback, every dependency
`d` of a task placed in level `i` is the agent name of some task placed in a
strictly earlier level `j < i`. -/
theorem plan_level_ordering (tasks : List AgentTask)
    (hfb : planUsedFallback tasks = false)
    (i : Nat) (hi : i < (createExecutionPlan tasks).length)
    (t : AgentTask) (ht : t ∈ (createExecutionPlan tasks).get ⟨i, hi⟩)
    (d : String) (hd : d ∈ t.depends_on) :
    ∃ (j : Nat) (hj : j < (createExecutionPlan tasks).length), j < i ∧
      ∃ u ∈ (createExecutionPlan tasks).get ⟨j, hj⟩, u.agent_type = d := by
  have hord := planLoop_levelsOrdered tasks.length tasks [] hfb
  have step := levelsOrdered_get _ _ hord i hi t ht d hd
  rcases step with hc | hex
  · cases hc
  · exact hex

/-- Witness for C1: planning `[risk_agent, bias_agent (depends on
risk_agent)]` uses no fallback, and the dependency of the level-1 task is
satisfied by a level-0 task. -/
theorem plan_level_ordering_witness :
    planUsedFallback
      [ { agent_type := "risk_agent", priority := AgentPriority.critical },
        { agent_type := "bias_agent", priority := AgentPriority.high,
          depends_on := ["risk_agent"] } ] = false ∧
    ∃ (j : Nat)
      (hj : j < (createExecutionPlan
        [ { agent_type := "risk_agent", priority := AgentPriority.critical },
          { agent_type := "bias_agent", priority := AgentPriority.high,
            depends_on := ["risk_agent"] } ]).length), j < 1 ∧
      ∃ u ∈ (createExecutionPlan
        [ { agent_type := "risk_agent", priority := AgentPriority.critical },
          { agent_type := "bias_agent", priority := AgentPriority.high,
            depends_on := ["risk_agent"] } ]).get ⟨j, hj⟩,
        u.agent_type = "risk_agent" :=
  ⟨by decide,
    plan_level_ordering _ (by decide) 1 (by decide)
      { agent_type := "bias_agent", priority := AgentPriority.high,
        depends_on := ["risk_agent"] }
      (by decide) "risk_agent" (by decide)⟩

/-- C2: for every finite task list (cyclic or dangling dependencies
included) the planner needs at most `len(tasks)` iterations of its outer
loop — one output level per iteration — and the concatenation of the output
levels is a permutation of the input, so every input task lands in exactly
one level (the unsatisfiable ones together in the final fallback level,
which is how `planLoop`'s degenerate branch emits them). -/
theorem plan_termination_and_partition (tasks : List AgentTask) :
    List.Perm (createExecutionPlan tasks).flatten tasks ∧
    (createExecutionPlan tasks).length ≤ tasks.length :=
  ⟨planLoop_flatten_perm tasks.length tasks [] (Nat.le_refl _),
    planLoop_length_le tasks.length tasks []⟩

/-! ## Retry controller -/

/-- A permanently failing call exhausts the whole budget: `budget + 1`
invocations, terminal result `failed` with the last error. -/
theorem attemptLoopAux_error (e agentType : String) : ∀ budget : Nat,
    attemptLoopAux (Except.error e) agentType budget =
      (failedResult e agentType, budget + 1) := by
  intro budget
  induction budget with
  | zero => rfl
  | succ b ih => simp [attemptLoopAux, ih]

/-- C4: a task whose agent capability raises on every invocation is invoked
exactly `max_retries + 1` times when its `retry_count` starts at the default
`0` (3 total attempts for the default budget `max_retries = 2`), and its
final result is `failed` carrying the last error message. -/
theorem retry_bound (agents : List (String × AgentBehavior)) (task : AgentTask)
    (beh : AgentBehavior) (e : String) (prev : Results)
    (hreg : dictGet agents task.agent_type = some beh)
    (hfail : ∀ input, beh input = Except.error e)
    (hrc : task.retry_count = 0) :
    executeSingleTask agents task prev =
      Except.ok (failedResult e task.agent_type, task.max_retries + 1) := by
  simp only [executeSingleTask, hreg]
  rw [hfail]
  simp only [executeSingleTaskAttempts, hrc, Nat.sub_zero, attemptLoopAux_error]

/-- Witness for C4: a registered always-raising agent with the default
budget is invoked 3 times and ends `failed`. -/
theorem retry_bound_witness :
    executeSingleTask [("risk_agent", fun _ => Except.error "boom")]
      { agent_type := "risk_agent", priority := AgentPriority.critical } [] =
      Except.ok (failedResult "boom" "risk_agent", 3) :=
  retry_bound _ _ _ _ _ rfl (fun _ => rfl) rfl

/-! ## Result aggregator -/

theorem pyMaxStep_foldl (xs : List String) : ∀ b : String,
    (xs.foldl pyMaxStep b = b ∨ xs.foldl pyMaxStep b ∈ xs) ∧
    riskPriorityRank b ≤ riskPriorityRank (xs.foldl pyMaxStep b) ∧
    ∀ y ∈ xs, riskPriorityRank y ≤ riskPriorityRank (xs.foldl pyMaxStep b) := by
  induction xs with
  | nil => simp
  | cons x xs ih =>
    intro b
    simp only [List.foldl_cons]
    obtain ⟨hm, hb, hall⟩ := ih (pyMaxStep b x)
    have hbx : riskPriorityRank b ≤ riskPriorityRank (pyMaxStep b x) := by
      unfold pyMaxStep
      split
      · omega
      · exact Nat.le_refl _
    have hxx : riskPriorityRank x ≤ riskPriorityRank (pyMaxStep b x) := by
      unfold pyMaxStep
      split
      · exact Nat.le_refl _
      · omega
    refine ⟨?_, Nat.le_trans hbx hb, ?_⟩
    · rcases hm with hm | hm
      · rw [hm]
        unfold pyMaxStep
        split
        · exact Or.inr (List.mem_cons_self _ _)
        · exact Or.inl rfl
      · exact Or.inr (List.mem_cons_of_mem _ hm)
    · intro y hy
      rcases List.mem_cons.mp hy with rfl | hy
      · exact Nat.le_trans hxx hb
      · exact hall y hy

/-- `pyMaxRisk` of a non-empty list returns an element of maximal severity
rank. -/
theorem pyMaxRisk_spec (xs : List String) (h : xs ≠ []) :
    ∃ m, pyMaxRisk xs = some m ∧ m ∈ xs ∧
      ∀ y ∈ xs, riskPriorityRank y ≤ riskPriorityRank m := by
  match xs with
  | [] => exact absurd rfl h
  | x :: xs =>
    obtain ⟨hm, _, hall⟩ := pyMaxStep_foldl xs x
    refine ⟨xs.foldl pyMaxStep x, rfl, ?_, ?_⟩
    · rcases hm with hm | hm
      · rw [hm]
        exact List.mem_cons_self _ _
      · exact List.mem_cons_of_mem _ hm
    · intro y hy
      rcases List.mem_cons.mp hy with rfl | hy
      · exact (pyMaxStep_foldl xs y).2.1
      · exact hall y hy

/-- C7: whenever the successful results report at least one `risk_level`,
the aggregator's `overall_risk_level` is one of the reported values and has
maximal severity rank under `critical(4) > high(3) > medium(2) > low(1)`
(unlisted strings rank 0, as Python's `.get(x, 0)`); and when at least one
result succeeded but none reported a `risk_level`, it defaults to `"low"`. -/
theorem overall_risk_is_severity_max (agent_results : Results) (wt : WorkflowType) :
    (collectRiskLevels (successfulResults agent_results) ≠ [] →
      ∃ r, (aggregateResults agent_results wt).overall_risk_level = some r ∧
        r ∈ collectRiskLevels (successfulResults agent_results) ∧
        ∀ x ∈ collectRiskLevels (successfulResults agent_results),
          riskPriorityRank x ≤ riskPriorityRank r) ∧
    (successfulResults agent_results ≠ [] →
      collectRiskLevels (successfulResults agent_results) = [] →
      (aggregateResults agent_results wt).overall_risk_level = some "low") := by
  constructor
  · intro hrl
    have hsucc : ¬ (successfulResults agent_results).isEmpty = true := by
      intro hc
      apply hrl
      have : successfulResults agent_results = [] := by simpa [List.isEmpty_iff] using hc
      simp [collectRiskLevels, this]
    obtain ⟨m, hm, hmem, hmax⟩ := pyMaxRisk_spec _ hrl
    refine ⟨m, ?_, hmem, hmax⟩
    simp only [aggregateResults, if_neg hsucc, hm]
  · intro hsucc hrl
    have hsucc' : ¬ (successfulResults agent_results).isEmpty = true := by
      simpa [List.isEmpty_iff] using hsucc
    simp only [aggregateResults, if_neg hsucc', hrl]
    rfl

/-- A completed result reporting the given risk level, used as concrete
test data. -/
def completedWithRisk (r : String) : ResultDict :=
  { status := "completed", assessment_data := some { risk_level := some r } }

/-- Concrete results map with risk levels `low`, `high`, `medium`. -/
def mixedRiskResults : Results :=
  [ ("risk_agent", completedWithRisk "low"),
    ("bias_agent", completedWithRisk "high"),
    ("policy_agent", completedWithRisk "medium") ]

/-- Witness for C7: successful results reporting `low`, `high`, `medium`
aggregate to an `overall_risk_level` of maximal severity rank (it is
`"high"`). -/
theorem overall_risk_is_severity_max_witness :
    ∃ r, (aggregateResults mixedRiskResults
        WorkflowType.comprehensive_assessment).overall_risk_level = some r ∧
      r ∈ collectRiskLevels (successfulResults mixedRiskResults) ∧
      ∀ x ∈ collectRiskLevels (successfulResults mixedRiskResults),
        riskPriorityRank x ≤ riskPriorityRank r :=
  (overall_risk_is_severity_max mixedRiskResults
    WorkflowType.comprehensive_assessment).1 (by decide)

/-! ## Custom-agent workflow creation -/

/-- C8: with a (truthy, i.e. non-empty) custom agent list, the task list is
one HIGH-priority, dependency-free task per listed name that is registered,
in list order; listed names absent from the registry are silently dropped. -/
theorem custom_agent_tasks (agents : List (String × AgentBehavior))
    (wt : WorkflowType) (l : List String) (hl : l ≠ []) :
    createWorkflowTasks agents wt (some l) =
      (l.filter (fun a => (dictGet agents a).isSome)).map customTask := by
  have htruthy : customTruthy (some l) = true := by
    simp [customTruthy, List.isEmpty_iff, hl]
  simp only [createWorkflowTasks, htruthy, if_pos, Option.getD_some]
  apply List.filter_eq_self.mpr
  intro t ht
  rcases List.mem_map.mp ht with ⟨a, ha, rfl⟩
  have hreg := (List.mem_filter.mp ha).2
  simpa [customTask] using hreg

/-- Witness for C8 (the spec's own scenario): custom list
`["risk_agent", "unregistered_agent"]` against a registry containing only
`risk_agent` yields exactly the one `risk_agent` task. -/
theorem custom_agent_tasks_witness :
    createWorkflowTasks [("risk_agent", fun _ => Except.ok { status := "completed" })]
      WorkflowType.rapid_screening (some ["risk_agent", "unregistered_agent"]) =
      [customTask "risk_agent"] := by
  rw [custom_agent_tasks _ _ _ (by decide)]
  rfl

/-! ## Level-executor key bookkeeping -/

theorem dictGet_isSome_mem_keys {α : Type} : ∀ (d : List (String × α)) (k : String),
    (dictGet d k).isSome → k ∈ d.map Prod.fst := by
  intro d
  induction d with
  | nil => intro k h; simp [dictGet] at h
  | cons p d ih =>
    intro k h
    obtain ⟨k₀, v₀⟩ := p
    by_cases h0 : k₀ = k
    · simp [h0]
    · simp only [dictGet, if_neg h0] at h
      simp [ih k h]

theorem dictGet_dictSet_isSome {α : Type} (d : List (String × α)) (k k' : String)
    (v : α) (h : (dictGet d k').isSome) : (dictGet (dictSet d k v) k').isSome := by
  by_cases hk : k = k'
  · subst hk
    simp [dictGet_dictSet_self]
  · rw [dictGet_dictSet_ne d k k' v hk]
    exact h

/-- A `dictSet`-fold over pairs with duplicate-free keys, all fresh for the
initial dict, appends the pairs in order. -/
theorem foldl_dictSet_eq_append {α : Type} : ∀ (ps : List (String × α))
    (d : List (String × α)), (ps.map Prod.fst).Nodup →
    (∀ p ∈ ps, dictGet d p.1 = none) →
    ps.foldl (fun acc p => dictSet acc p.1 p.2) d = d ++ ps := by
  intro ps
  induction ps with
  | nil => intro d _ _; simp
  | cons p ps ih =>
    intro d hnd hfresh
    simp only [List.foldl_cons]
    have hset : dictSet d p.1 p.2 = d ++ [p] :=
      dictSet_of_get_none d p.1 p.2 (hfresh p (List.mem_cons_self _ _))
    rw [hset]
    have hnd2 : (p.1 :: ps.map Prod.fst).Nodup := hnd
    have hnd' : (ps.map Prod.fst).Nodup := (List.nodup_cons.mp hnd2).2
    have hhead : p.1 ∉ ps.map Prod.fst := (List.nodup_cons.mp hnd2).1
    have hfresh' : ∀ q ∈ ps, dictGet (d ++ [p]) q.1 = none := by
      intro q hq
      rw [dictGet_append_of_none d [p] q.1 (hfresh q (List.mem_cons_of_mem _ hq))]
      have hne : p.1 ≠ q.1 := by
        intro hc
        exact hhead (hc ▸ List.mem_map.mpr ⟨q, hq, rfl⟩)
      simp [dictGet, hne]
    rw [ih (d ++ [p]) hnd' hfresh']
    simp

/-- Any key set by a `dictSet`-fold — either already present or among the
folded pairs — is present afterwards. -/
theorem foldl_dictSet_isSome {α : Type} : ∀ (ps : List (String × α))
    (d : List (String × α)) (k : String),
    ((dictGet d k).isSome ∨ k ∈ ps.map Prod.fst) →
    (dictGet (ps.foldl (fun acc p => dictSet acc p.1 p.2) d) k).isSome := by
  intro ps
  induction ps with
  | nil =>
    intro d k h
    simpa using h.resolve_right (by simp)
  | cons p ps ih =>
    intro d k h
    simp only [List.foldl_cons]
    rcases h with h | h
    · exact ih _ k (Or.inl (dictGet_dictSet_isSome d p.1 k p.2 h))
    · have h2 : k ∈ p.1 :: ps.map Prod.fst := h
      rcases List.mem_cons.mp h2 with rfl | h3
      · refine ih _ p.1 (Or.inl ?_)
        simp [dictGet_dictSet_self]
      · exact ih _ k (Or.inr h3)

/-- With duplicate-free agent names, the worker-pool collection is exactly
one entry per task, in order. -/
theorem executeParallelTasks_eq (agents : List (String × AgentBehavior))
    (prev : Results) (tasks : List AgentTask)
    (hnd : (tasks.map (fun t => t.agent_type)).Nodup) :
    executeParallelTasks agents tasks prev =
      tasks.map (fun t => (t.agent_type, parallelTaskResult agents prev t)) := by
  unfold executeParallelTasks
  have hfold :
      tasks.foldl
        (fun acc task => dictSet acc task.agent_type (parallelTaskResult agents prev task)) [] =
      (tasks.map (fun t => (t.agent_type, parallelTaskResult agents prev t))).foldl
        (fun acc p => dictSet acc p.1 p.2) [] := by
    rw [List.foldl_map]
  rw [hfold, foldl_dictSet_eq_append _ [] (by simpa [List.map_map, Function.comp] using hnd)
    (fun p _ => rfl)]
  simp

/-- Every task of a level gets an entry in the worker-pool collection. -/
theorem executeParallelTasks_key_isSome (agents : List (String × AgentBehavior))
    (prev : Results) (tasks : List AgentTask) (t : AgentTask) (ht : t ∈ tasks) :
    (dictGet (executeParallelTasks agents tasks prev) t.agent_type).isSome := by
  unfold executeParallelTasks
  have hfold :
      tasks.foldl
        (fun acc task => dictSet acc task.agent_type (parallelTaskResult agents prev task)) [] =
      (tasks.map (fun t => (t.agent_type, parallelTaskResult agents prev t))).foldl
        (fun acc p => dictSet acc p.1 p.2) [] := by
    rw [List.foldl_map]
  rw [hfold]
  refine foldl_dictSet_isSome _ [] t.agent_type (Or.inr ?_)
  simp only [List.map_map]
  exact List.mem_map.mpr ⟨t, ht, rfl⟩

theorem dictGet_eq_none_of_not_mem_keys {α : Type} (d : List (String × α))
    (k : String) (h : k ∉ d.map Prod.fst) : dictGet d k = none := by
  cases hg : dictGet d k with
  | none => rfl
  | some v =>
    exact absurd (dictGet_isSome_mem_keys d k (by simp [hg])) h

/-- A successful run of the level loop over a plan whose agent names are
duplicate-free and fresh for the starting results dict appends exactly one
entry per task of the plan. -/
theorem executeTasksFrom_map_fst (agents : List (String × AgentBehavior)) :
    ∀ (plan : List (List AgentTask)) (results final : Results),
    (plan.flatten.map (fun t => t.agent_type)).Nodup →
    (∀ t ∈ plan.flatten, dictGet results t.agent_type = none) →
    executeTasksFrom agents plan results = Except.ok final →
    final.map Prod.fst =
      results.map Prod.fst ++ plan.flatten.map (fun t => t.agent_type) := by
  intro plan
  induction plan with
  | nil =>
    intro results final _ _ hok
    simp only [executeTasksFrom] at hok
    cases hok
    simp
  | cons level rest ih =>
    intro results final hnd hfresh hok
    rcases level with _ | ⟨t1, _ | ⟨t2, lrest⟩⟩
    · simp [executeTasksFrom] at hok
    · -- single-task level, run inline
      simp only [executeTasksFrom] at hok
      cases hexec : executeSingleTask agents t1 results with
      | error e => simp [hexec] at hok
      | ok r =>
        simp only [hexec] at hok
        have hmem1 : t1 ∈ ([t1] :: rest).flatten := by simp
        have hset : dictSet results t1.agent_type r.1 =
            results ++ [(t1.agent_type, r.1)] :=
          dictSet_of_get_none _ _ _ (hfresh t1 hmem1)
        have hnd2 : (t1.agent_type :: rest.flatten.map (fun t => t.agent_type)).Nodup := by
          simpa using hnd
        have hhead : t1.agent_type ∉ rest.flatten.map (fun t => t.agent_type) :=
          (List.nodup_cons.mp hnd2).1
        have hfresh' : ∀ t ∈ rest.flatten,
            dictGet (results ++ [(t1.agent_type, r.1)]) t.agent_type = none := by
          intro t htm
          rw [dictGet_append_of_none _ _ _ (hfresh t (by simp [htm]))]
          have hne : t1.agent_type ≠ t.agent_type := by
            intro hc
            exact hhead (hc ▸ List.mem_map.mpr ⟨t, htm, rfl⟩)
          simp [dictGet, hne]
        have := ih (dictSet results t1.agent_type r.1) final
          (List.nodup_cons.mp hnd2).2 (by rw [hset]; exact hfresh') hok
        rw [hset] at this
        simpa [List.append_assoc] using this
    · -- multi-task level, worker pool
      simp only [executeTasksFrom] at hok
      have hflat : ((t1 :: t2 :: lrest) :: rest).flatten =
          (t1 :: t2 :: lrest) ++ rest.flatten := by simp
      have hnd2 : ((t1 :: t2 :: lrest).map (fun t => t.agent_type) ++
          rest.flatten.map (fun t => t.agent_type)).Nodup := by
        simpa [hflat] using hnd
      obtain ⟨hndl, hndr, hdisj⟩ := List.nodup_append.mp hnd2
      have hpar := executeParallelTasks_eq agents results (t1 :: t2 :: lrest) hndl
      have hparkeys : (executeParallelTasks agents (t1 :: t2 :: lrest) results).map Prod.fst =
          (t1 :: t2 :: lrest).map (fun t => t.agent_type) := by
        rw [hpar]
        simp [List.map_map, Function.comp]
      have hupd : dictUpdate results (executeParallelTasks agents (t1 :: t2 :: lrest) results) =
          results ++ executeParallelTasks agents (t1 :: t2 :: lrest) results := by
        apply foldl_dictSet_eq_append
        · rw [hparkeys]
          exact hndl
        · intro p hp
          rw [hpar] at hp
          rcases List.mem_map.mp hp with ⟨t, htm, rfl⟩
          exact hfresh t (List.mem_flatten.mpr ⟨_, List.mem_cons_self _ _, htm⟩)
      have hfresh' : ∀ t ∈ rest.flatten,
          dictGet (results ++ executeParallelTasks agents (t1 :: t2 :: lrest) results)
            t.agent_type = none := by
        intro t htm
        obtain ⟨l, hl, htl⟩ := List.mem_flatten.mp htm
        rw [dictGet_append_of_none _ _ _
          (hfresh t (List.mem_flatten.mpr ⟨l, List.mem_cons_of_mem _ hl, htl⟩))]
        apply dictGet_eq_none_of_not_mem_keys
        rw [hparkeys]
        intro hc
        exact absurd (List.mem_map.mpr ⟨t, htm, rfl⟩) (hdisj hc)
      have := ih
        (dictUpdate results (executeParallelTasks agents (t1 :: t2 :: lrest) results))
        final hndr (by rw [hupd]; exact hfresh') hok
      rw [hupd] at this
      rw [this]
      simp [List.map_append, hparkeys, List.append_assoc]

/-- When every task of a plan with non-empty levels names a registered
agent, the level loop never raises and every task's agent name ends up as a
key of the final results dict. -/
theorem executeTasksFrom_ok_of_registered (agents : List (String × AgentBehavior)) :
    ∀ (plan : List (List AgentTask)) (results : Results),
    (∀ lvl ∈ plan, lvl ≠ []) →
    (∀ lvl ∈ plan, ∀ t ∈ lvl, (dictGet agents t.agent_type).isSome) →
    ∃ final, executeTasksFrom agents plan results = Except.ok final ∧
      ∀ k, ((dictGet results k).isSome ∨ ∃ lvl ∈ plan, ∃ t ∈ lvl, t.agent_type = k) →
        (dictGet final k).isSome := by
  intro plan
  induction plan with
  | nil =>
    intro results _ _
    refine ⟨results, rfl, ?_⟩
    intro k hk
    rcases hk with hk | ⟨lvl, hlvl, _⟩
    · exact hk
    · cases hlvl
  | cons level rest ih =>
    intro results hne hreg
    rcases level with _ | ⟨t1, _ | ⟨t2, lrest⟩⟩
    · exact absurd rfl (hne [] (List.mem_cons_self _ _))
    · -- single-task level
      have hr1 : (dictGet agents t1.agent_type).isSome :=
        hreg [t1] (List.mem_cons_self _ _) t1 (List.mem_cons_self _ _)
      obtain ⟨beh, hbeh⟩ := Option.isSome_iff_exists.mp hr1
      obtain ⟨final, hfin, hkeys⟩ := ih (dictSet results t1.agent_type
          (executeSingleTaskAttempts (beh (mkPrevInput t1 results)) t1.agent_type
            t1.retry_count t1.max_retries).1)
        (fun lvl hm => hne lvl (List.mem_cons_of_mem _ hm))
        (fun lvl hm => hreg lvl (List.mem_cons_of_mem _ hm))
      refine ⟨final, ?_, ?_⟩
      · simp only [executeTasksFrom, executeSingleTask, hbeh]
        exact hfin
      · intro k hk
        apply hkeys
        rcases hk with hk | ⟨lvl, hlvl, t, htl, hkt⟩
        · exact Or.inl (dictGet_dictSet_isSome _ _ _ _ hk)
        · rcases List.mem_cons.mp hlvl with rfl | hlvl
          · rcases List.mem_singleton.mp htl with rfl
            subst hkt
            exact Or.inl (by simp [dictGet_dictSet_self])
          · exact Or.inr ⟨lvl, hlvl, t, htl, hkt⟩
    · -- multi-task level
      obtain ⟨final, hfin, hkeys⟩ := ih
        (dictUpdate results (executeParallelTasks agents (t1 :: t2 :: lrest) results))
        (fun lvl hm => hne lvl (List.mem_cons_of_mem _ hm))
        (fun lvl hm => hreg lvl (List.mem_cons_of_mem _ hm))
      refine ⟨final, ?_, ?_⟩
      · simp only [executeTasksFrom]
        exact hfin
      · intro k hk
        apply hkeys
        rcases hk with hk | ⟨lvl, hlvl, t, htl, hkt⟩
        · refine Or.inl (foldl_dictSet_isSome _ _ _ (Or.inl hk))
        · rcases List.mem_cons.mp hlvl with rfl | hlvl
          · subst hkt
            refine Or.inl (foldl_dictSet_isSome _ _ _ (Or.inr ?_))
            exact dictGet_isSome_mem_keys _ _
              (executeParallelTasks_key_isSome agents results _ t htl)
          · exact Or.inr ⟨lvl, hlvl, t, htl, hkt⟩

/-! ## Result completeness (C3) -/

/-- C3 amended: after a normal return of `execute_workflow`, the
`agent_results` map has one entry per *distinct* agent name of the task
list; when the task list's agent names are pairwise distinct this is
exactly `N = len(tasks)` entries.  (As literally stated for every task
list the claim fails: results are keyed by agent name, so duplicate agent
names collapse, see `result_completeness_cex`.) -/
theorem result_completeness (st : OrchState) (wid : String) (wf : Workflow)
    (r : WorkflowResult)
    (hwf : dictGet st.active_workflows wid = some wf)
    (hnd : (wf.tasks.map (fun t => t.agent_type)).Nodup)
    (hok : (executeWorkflow st wid).1 = Except.ok r) :
    r.agent_results.length = wf.tasks.length := by
  simp only [executeWorkflow, hwf] at hok
  cases hexec : executeTasks st.agents (createExecutionPlan wf.tasks) with
  | error e => simp [hexec] at hok
  | ok results =>
    simp only [hexec] at hok
    have hperm : List.Perm (createExecutionPlan wf.tasks).flatten wf.tasks :=
      planLoop_flatten_perm wf.tasks.length wf.tasks [] (Nat.le_refl _)
    have hndflat : ((createExecutionPlan wf.tasks).flatten.map
        (fun t => t.agent_type)).Nodup :=
      ((hperm.map (fun t => t.agent_type)).nodup_iff).mpr hnd
    have hmap := executeTasksFrom_map_fst st.agents (createExecutionPlan wf.tasks)
      [] results hndflat (fun _ _ => rfl) hexec
    have hlen : results.length = (createExecutionPlan wf.tasks).flatten.length := by
      have h0 := congrArg List.length hmap
      simpa only [List.length_map, List.length_append, List.length_nil,
        Nat.zero_add] using h0
    have hres : r.agent_results = results := by
      cases hok
      rfl
    rw [hres, hlen]
    exact hperm.length_eq

/-- An agent capability that always succeeds with a bare completed result. -/
def okAgent : AgentBehavior := fun _ => Except.ok { status := "completed" }

/-- A rapid-screening workflow on a registry with one succeeding
`risk_agent`. -/
def singleRiskState : OrchState :=
  (createWorkflow
    { agents := [("risk_agent", okAgent)], active_workflows := [],
      workflow_history := [] }
    WorkflowType.rapid_screening none 100).2

/-- The rapid-screening task list stored for `singleRiskState`'s workflow. -/
def singleRiskWf : Workflow :=
  { id := "workflow_100_0", wtype := WorkflowType.rapid_screening,
    tasks := [{ agent_type := "risk_agent", priority := AgentPriority.critical }],
    status := "created" }

/-- The concrete `WorkflowResult` that executing `singleRiskState`'s
workflow returns. -/
def singleRiskResult : WorkflowResult :=
  { workflow_id := "workflow_100_0", workflow_type := WorkflowType.rapid_screening,
    status := "completed",
    agent_results := [("risk_agent", { status := "completed" })],
    aggregated_assessment :=
      { overall_status := "completed", overall_risk_level := some "low",
        overall_compliance := some "unknown", recommendations := some [],
        agents_consulted := some ["risk_agent"], failed_agents := some [],
        workflow_type := some "rapid_screening" } }

/-- Witness for C3 (amended): a one-task workflow with a distinct agent name
yields a results map with exactly one entry. -/
theorem result_completeness_witness :
    singleRiskResult.agent_results.length = singleRiskWf.tasks.length :=
  result_completeness singleRiskState "workflow_100_0" singleRiskWf
    singleRiskResult rfl (by decide) rfl

/-- Registry and initial state for the duplicate-agent counterexample: one
registered `risk_agent`, and a workflow created with the custom list
`["risk_agent", "risk_agent"]`, giving two tasks with the same agent name. -/
def dupRiskState : OrchState :=
  (createWorkflow
    { agents := [("risk_agent", fun _ => Except.ok { status := "completed" })],
      active_workflows := [], workflow_history := [] }
    WorkflowType.rapid_screening (some ["risk_agent", "risk_agent"]) 100).2

/-- Counterexample for C3 as stated: a reachable workflow with `N = 2` tasks
(custom list `["risk_agent", "risk_agent"]`) whose normal `execute_workflow`
return carries an `agent_results` map with only 1 entry. -/
theorem result_completeness_cex :
    (dictGet dupRiskState.active_workflows "workflow_100_0").map
      (fun wf => wf.tasks.length) = some 2 ∧
    ((executeWorkflow dupRiskState "workflow_100_0").1.map
      (fun r => r.agent_results.length)) = Except.ok 1 :=
  ⟨rfl, rfl⟩

/-! ## Failure propagation (C5) -/

theorem mem_dictSet {α : Type} : ∀ (d : List (String × α)) (k : String) (v : α)
    (q : String × α), q ∈ dictSet d k v → q ∈ d ∨ q = (k, v) := by
  intro d
  induction d with
  | nil =>
    intro k v q hq
    simp only [dictSet, List.mem_singleton] at hq
    exact Or.inr hq
  | cons p d ih =>
    intro k v q hq
    obtain ⟨k0, v0⟩ := p
    by_cases h0 : k0 = k
    · simp only [dictSet, if_pos h0] at hq
      rcases List.mem_cons.mp hq with rfl | hq
      · exact Or.inr rfl
      · exact Or.inl (List.mem_cons_of_mem _ hq)
    · simp only [dictSet, if_neg h0] at hq
      rcases List.mem_cons.mp hq with rfl | hq
      · exact Or.inl (List.mem_cons_self _ _)
      · rcases ih k v q hq with h | h
        · exact Or.inl (List.mem_cons_of_mem _ h)
        · exact Or.inr h

theorem mem_foldl_dictSet {α : Type} : ∀ (ps : List (String × α))
    (d : List (String × α)) (q : String × α),
    q ∈ ps.foldl (fun acc p => dictSet acc p.1 p.2) d → q ∈ d ∨ q ∈ ps := by
  intro ps
  induction ps with
  | nil =>
    intro d q hq
    exact Or.inl hq
  | cons p ps ih =>
    intro d q hq
    simp only [List.foldl_cons] at hq
    rcases ih _ q hq with h | h
    · rcases mem_dictSet d p.1 p.2 q h with h | h
      · exact Or.inl h
      · refine Or.inr ?_
        rw [h]
        exact List.mem_cons_self _ _
    · exact Or.inr (List.mem_cons_of_mem _ h)

theorem dictGet_foldl_dictSet_not_mem {α : Type} : ∀ (ps : List (String × α))
    (d : List (String × α)) (k : String), k ∉ ps.map Prod.fst →
    dictGet (ps.foldl (fun acc p => dictSet acc p.1 p.2) d) k = dictGet d k := by
  intro ps
  induction ps with
  | nil =>
    intro d k _
    rfl
  | cons p ps ih =>
    intro d k hk
    simp only [List.foldl_cons]
    have h1 : k ∉ ps.map Prod.fst := fun hc => hk (List.mem_cons_of_mem _ hc)
    have h2 : p.1 ≠ k := by
      intro hc
      apply hk
      rw [← hc]
      exact List.mem_cons_self _ _
    rw [ih _ k h1, dictGet_dictSet_ne d p.1 k p.2 h2]

/-- If every folded pair at key `k` carries the same value `v`, and either
`k` is among the folded keys or the initial dict already maps `k` to `v`,
then the fold result maps `k` to `v`. -/
theorem dictGet_foldl_dictSet_const {α : Type} : ∀ (ps : List (String × α))
    (d : List (String × α)) (k : String) (v : α),
    (∀ p ∈ ps, p.1 = k → p.2 = v) →
    (k ∈ ps.map Prod.fst ∨ dictGet d k = some v) →
    dictGet (ps.foldl (fun acc p => dictSet acc p.1 p.2) d) k = some v := by
  intro ps
  induction ps with
  | nil =>
    intro d k v _ h
    rcases h with h | h
    · simp at h
    · exact h
  | cons p ps ih =>
    intro d k v hval h
    simp only [List.foldl_cons]
    by_cases hpk : p.1 = k
    · refine ih _ k v (fun q hq => hval q (List.mem_cons_of_mem _ hq)) (Or.inr ?_)
      have hv : p.2 = v := hval p (List.mem_cons_self _ _) hpk
      rw [hpk, hv]
      exact dictGet_dictSet_self d k v
    · refine ih _ k v (fun q hq => hval q (List.mem_cons_of_mem _ hq)) ?_
      rcases h with h | h
      · have h2 : k ∈ p.1 :: ps.map Prod.fst := h
        rcases List.mem_cons.mp h2 with heq | h3
        · exact absurd heq.symm hpk
        · exact Or.inl h3
      · right
        rw [dictGet_dictSet_ne d p.1 k p.2 hpk]
        exact h

/-- Every entry of the worker-pool collection comes from one of the level's
tasks, keyed by its agent name and carrying its converted result. -/
theorem mem_executeParallelTasks (agents : List (String × AgentBehavior))
    (prev : Results) (tasks : List AgentTask) (q : String × ResultDict)
    (hq : q ∈ executeParallelTasks agents tasks prev) :
    ∃ t ∈ tasks, q = (t.agent_type, parallelTaskResult agents prev t) := by
  have hfold : executeParallelTasks agents tasks prev =
      (tasks.map (fun t => (t.agent_type, parallelTaskResult agents prev t))).foldl
        (fun acc p => dictSet acc p.1 p.2) [] := by
    unfold executeParallelTasks
    rw [List.foldl_map]
  rw [hfold] at hq
  rcases mem_foldl_dictSet _ _ q hq with h | h
  · cases h
  · rcases List.mem_map.mp h with ⟨t, ht, rfl⟩
    exact ⟨t, ht, rfl⟩

/-- Every key of the worker-pool collection is the agent name of some task
of the level. -/
theorem executeParallelTasks_keys_sub (agents : List (String × AgentBehavior))
    (prev : Results) (tasks : List AgentTask) (k : String)
    (hk : k ∈ (executeParallelTasks agents tasks prev).map Prod.fst) :
    ∃ t ∈ tasks, t.agent_type = k := by
  rcases List.mem_map.mp hk with ⟨q, hq, rfl⟩
  rcases mem_executeParallelTasks agents prev tasks q hq with ⟨t, ht, rfl⟩
  exact ⟨t, ht, rfl⟩

/-- `_execute_single_task` on a registered agent whose capability raises `e`
on every invocation: the whole retry budget is spent and the `failed` result
dict carrying `e` is returned (never an exception). -/
theorem executeSingleTask_failing (agents : List (String × AgentBehavior))
    (task : AgentTask) (prev : Results) (beh : AgentBehavior) (e : String)
    (hbeh : dictGet agents task.agent_type = some beh)
    (hfail : ∀ input, beh input = Except.error e) :
    executeSingleTask agents task prev =
      Except.ok (failedResult e task.agent_type,
        task.max_retries - task.retry_count + 1) := by
  simp only [executeSingleTask, hbeh, hfail, executeSingleTaskAttempts,
    attemptLoopAux_error]

/-- The worker-pool conversion for an always-raising registered agent is the
`failed` result dict carrying its error. -/
theorem parallelTaskResult_failing (agents : List (String × AgentBehavior))
    (prev : Results) (task : AgentTask) (beh : AgentBehavior) (e : String)
    (hbeh : dictGet agents task.agent_type = some beh)
    (hfail : ∀ input, beh input = Except.error e) :
    parallelTaskResult agents prev task = failedResult e task.agent_type := by
  unfold parallelTaskResult
  rw [executeSingleTask_failing agents task prev beh e hbeh hfail]

/-- Value tracking through the level loop: if agent `k`'s capability raises
`e` on every invocation, then — provided some task of the plan names `k`, or
the entry is already the converted failure — a successful run leaves
`failedResult e k` as the entry at `k`.  (Every write at key `k` comes from
a task named `k`, and each such execution converts to the same `failed`
dict.) -/
theorem executeTasksFrom_failing_value (agents : List (String × AgentBehavior))
    (k : String) (beh : AgentBehavior) (e : String)
    (hbeh : dictGet agents k = some beh)
    (hfail : ∀ input, beh input = Except.error e) :
    ∀ (plan : List (List AgentTask)) (results final : Results),
    executeTasksFrom agents plan results = Except.ok final →
    (dictGet results k = some (failedResult e k) ∨
      ∃ lvl ∈ plan, ∃ t ∈ lvl, t.agent_type = k) →
    dictGet final k = some (failedResult e k) := by
  intro plan
  induction plan with
  | nil =>
    intro results final hok hinv
    simp only [executeTasksFrom] at hok
    cases hok
    rcases hinv with h | ⟨lvl, hlvl, _⟩
    · exact h
    · cases hlvl
  | cons level rest ih =>
    intro results final hok hinv
    rcases level with _ | ⟨t1, _ | ⟨t2, lrest⟩⟩
    · simp [executeTasksFrom] at hok
    · -- single-task level, run inline
      simp only [executeTasksFrom] at hok
      cases hexec : executeSingleTask agents t1 results with
      | error e' => simp [hexec] at hok
      | ok r =>
        simp only [hexec] at hok
        by_cases hk : t1.agent_type = k
        · have h1 := executeSingleTask_failing agents t1 results beh e
            (by rw [hk]; exact hbeh) hfail
          rw [hexec] at h1
          have hr : r.1 = failedResult e t1.agent_type := by
            cases h1
            rfl
          apply ih _ final hok
          left
          subst hk
          rw [dictGet_dictSet_self, hr]
        · apply ih _ final hok
          rcases hinv with h | ⟨lvl, hlvl, t, htl, hkt⟩
          · left
            rw [dictGet_dictSet_ne _ _ _ _ hk]
            exact h
          · rcases List.mem_cons.mp hlvl with rfl | hlvl
            · rcases List.mem_singleton.mp htl with rfl
              exact absurd hkt hk
            · exact Or.inr ⟨lvl, hlvl, t, htl, hkt⟩
    · -- multi-task level, worker pool
      simp only [executeTasksFrom] at hok
      by_cases hk : ∃ t ∈ (t1 :: t2 :: lrest), t.agent_type = k
      · apply ih _ final hok
        left
        unfold dictUpdate
        apply dictGet_foldl_dictSet_const
        · intro p hp hpk
          rcases mem_executeParallelTasks agents results _ p hp with ⟨t, ht, rfl⟩
          have hpt := parallelTaskResult_failing agents results t beh e
            (by rw [show t.agent_type = k from hpk]; exact hbeh) hfail
          rw [hpt, show t.agent_type = k from hpk]
        · left
          obtain ⟨t, ht, htk⟩ := hk
          have hsome := executeParallelTasks_key_isSome agents results _ t ht
          rw [htk] at hsome
          exact dictGet_isSome_mem_keys _ _ hsome
      · apply ih _ final hok
        rcases hinv with h | ⟨lvl, hlvl, t, htl, hkt⟩
        · left
          unfold dictUpdate
          rw [dictGet_foldl_dictSet_not_mem]
          · exact h
          · intro hc
            exact hk (executeParallelTasks_keys_sub agents results _ k hc)
        · rcases List.mem_cons.mp hlvl with rfl | hlvl
          · exact absurd ⟨t, htl, hkt⟩ hk
          · exact Or.inr ⟨lvl, hlvl, t, htl, hkt⟩

/-- C5: when every task names a registered agent, the level executor over
the task list's plan returns normally — whatever the agent capabilities do
(including raising on every call) — every task contributes an entry to the
results map (so the remaining tasks of each level and all later levels
still run), and a task whose capability raises `e` on every invocation has
its exception converted into the `failed` result dict carrying `e` rather
than propagated. -/
theorem agent_failures_never_propagate (agents : List (String × AgentBehavior))
    (tasks : List AgentTask)
    (hreg : ∀ t ∈ tasks, (dictGet agents t.agent_type).isSome = true) :
    ∃ results, executeTasks agents (createExecutionPlan tasks) = Except.ok results ∧
      (∀ t ∈ tasks, (dictGet results t.agent_type).isSome = true) ∧
      ∀ t ∈ tasks, ∀ (beh : AgentBehavior) (e : String),
        dictGet agents t.agent_type = some beh →
        (∀ input, beh input = Except.error e) →
        dictGet results t.agent_type = some (failedResult e t.agent_type) := by
  have hne : ∀ lvl ∈ createExecutionPlan tasks, lvl ≠ [] :=
    fun lvl hm => planLoop_levels_ne_nil tasks.length tasks [] lvl hm
  have hperm := planLoop_flatten_perm tasks.length tasks [] (Nat.le_refl _)
  have hregP : ∀ lvl ∈ createExecutionPlan tasks, ∀ t ∈ lvl,
      (dictGet agents t.agent_type).isSome := by
    intro lvl hlvl t ht
    exact hreg t (hperm.mem_iff.mp (List.mem_flatten.mpr ⟨lvl, hlvl, ht⟩))
  obtain ⟨final, hfin, hkeys⟩ :=
    executeTasksFrom_ok_of_registered agents (createExecutionPlan tasks) [] hne hregP
  refine ⟨final, hfin, ?_, ?_⟩
  · intro t ht
    apply hkeys
    right
    obtain ⟨lvl, hlvl, htl⟩ := List.mem_flatten.mp (hperm.mem_iff.mpr ht)
    exact ⟨lvl, hlvl, t, htl, rfl⟩
  · intro t ht beh e hbeh hfail
    refine executeTasksFrom_failing_value agents t.agent_type beh e hbeh hfail
      (createExecutionPlan tasks) [] final hfin (Or.inr ?_)
    obtain ⟨lvl, hlvl, htl⟩ := List.mem_flatten.mp (hperm.mem_iff.mpr ht)
    exact ⟨lvl, hlvl, t, htl, rfl⟩

/-- Registry with two agents that raise on every invocation. -/
def failingAgents : List (String × AgentBehavior) :=
  [ ("risk_agent", fun _ => Except.error "risk boom"),
    ("bias_agent", fun _ => Except.error "bias boom") ]

/-- Two registered tasks, the second depending on the first. -/
def failingTasks : List AgentTask :=
  [ { agent_type := "risk_agent", priority := AgentPriority.critical },
    { agent_type := "bias_agent", priority := AgentPriority.high,
      depends_on := ["risk_agent"] } ]

/-- Witness for C5: both agents always raise, yet executing the plan returns
normally with an entry for each task, and each always-raising capability's
entry is the converted `failed` result dict carrying its error. -/
theorem agent_failures_never_propagate_witness :
    ∃ results,
      executeTasks failingAgents (createExecutionPlan failingTasks) =
        Except.ok results ∧
      (∀ t ∈ failingTasks, (dictGet results t.agent_type).isSome = true) ∧
      ∀ t ∈ failingTasks, ∀ (beh : AgentBehavior) (e : String),
        dictGet failingAgents t.agent_type = some beh →
        (∀ input, beh input = Except.error e) →
        dictGet results t.agent_type = some (failedResult e t.agent_type) :=
  agent_failures_never_propagate failingAgents failingTasks (by decide)

/-! ## Workflow-level error handling (C6) -/

/-- C6 amended: when an exception escapes the body of `execute_workflow`
after the workflow started running, the workflow's status is set to
`failed`, the error message is recorded on it, and the exception is
re-raised — but the workflow *stays* in the active registry and nothing is
appended to historical storage (the claim's "moved to historical storage"
conjunct is what the except-branch does not do, see
`workflow_failure_not_moved_cex`). -/
theorem workflow_failure_state (st : OrchState) (wid : String) (wf : Workflow)
    (e : String)
    (hwf : dictGet st.active_workflows wid = some wf)
    (herr : (executeWorkflow st wid).1 = Except.error e) :
    dictGet (executeWorkflow st wid).2.active_workflows wid =
      some { wf with status := "failed", error := some e } ∧
    (executeWorkflow st wid).2.workflow_history = st.workflow_history := by
  simp only [executeWorkflow, hwf] at herr ⊢
  cases hexec : executeTasks st.agents (createExecutionPlan wf.tasks) with
  | ok results => simp [hexec] at herr
  | error e' =>
    simp only [hexec] at herr ⊢
    have he : e' = e := by
      cases herr
      rfl
    subst he
    exact ⟨dictGet_dictSet_self _ _ _, trivial⟩

/-- The concrete failing state: an active workflow whose single task names
an agent missing from the registry, so the inline registry lookup raises
`KeyError` out of the level executor. -/
def ghostState : OrchState :=
  { agents := [],
    active_workflows :=
      [("w", { id := "w", wtype := WorkflowType.rapid_screening,
               tasks := [{ agent_type := "ghost_agent", priority := AgentPriority.high }],
               status := "created" })],
    workflow_history := [] }

/-- Counterexample for C6 as stated: the exception is raised after the
workflow started running, yet the workflow is *not* moved from the active
registry to historical storage — it stays active (marked `failed`) and the
history remains empty. -/
theorem workflow_failure_not_moved_cex :
    (executeWorkflow ghostState "w").1 = Except.error "KeyError: ghost_agent" ∧
    ((executeWorkflow ghostState "w").2.active_workflows.map Prod.fst) = ["w"] ∧
    (executeWorkflow ghostState "w").2.workflow_history = [] :=
  ⟨rfl, rfl, rfl⟩

/-- Witness for C6 (amended): applying the theorem at the concrete failing
state shows the recorded status/error and the untouched history. -/
theorem workflow_failure_state_witness :
    dictGet (executeWorkflow ghostState "w").2.active_workflows "w" =
      some { id := "w", wtype := WorkflowType.rapid_screening,
             tasks := [{ agent_type := "ghost_agent", priority := AgentPriority.high }],
             status := "failed", error := some "KeyError: ghost_agent" } ∧
    (executeWorkflow ghostState "w").2.workflow_history = ghostState.workflow_history :=
  workflow_failure_state ghostState "w"
    { id := "w", wtype := WorkflowType.rapid_screening,
      tasks := [{ agent_type := "ghost_agent", priority := AgentPriority.high }],
      status := "created" }
    "KeyError: ghost_agent" rfl rfl

/-! ## Workflow-id uniqueness (C9) -/

/-- An orchestrator with nothing registered and no workflows. -/
def emptyState : OrchState :=
  { agents := [], active_workflows := [], workflow_history := [] }

/-- C9 fails (code bug — `_generate_workflow_id`'s docstring promises a
unique id): two distinct `create_workflow` calls in the same wall-clock
second, with a `cancel_workflow` in between restoring the active count,
return the *same* id `workflow_100_0`. -/
theorem workflow_id_collision :
    (createWorkflow emptyState WorkflowType.rapid_screening none 100).1 =
      (createWorkflow
        (cancelWorkflow
          (createWorkflow emptyState WorkflowType.rapid_screening none 100).2
          (createWorkflow emptyState WorkflowType.rapid_screening none 100).1).2
        WorkflowType.rapid_screening none 100).1 ∧
    (createWorkflow emptyState WorkflowType.rapid_screening none 100).1 =
      "workflow_100_0" :=
  ⟨rfl, rfl⟩

/-! ## Empty workflows (C10) -/

/-- C10: executing a workflow with an empty task list returns normally with
status `completed` and an empty results map, while the aggregated
assessment is the degenerate `overall_status = failed` /
`"No agents completed successfully"` value. -/
theorem empty_workflow_completes (st : OrchState) (wid : String) (wf : Workflow)
    (hwf : dictGet st.active_workflows wid = some wf)
    (htasks : wf.tasks = []) :
    ∃ r, (executeWorkflow st wid).1 = Except.ok r ∧ r.status = "completed" ∧
      r.agent_results = [] ∧
      r.aggregated_assessment.overall_status = "failed" ∧
      r.aggregated_assessment.message = some "No agents completed successfully" := by
  simp only [executeWorkflow, hwf, htasks]
  exact ⟨_, rfl, rfl, rfl, rfl, rfl⟩

/-- A template workflow created while no agent is registered: every template
agent name is filtered out, so the task list is empty. -/
def noAgentsState : OrchState :=
  (createWorkflow emptyState WorkflowType.comprehensive_assessment none 50).2

/-- Witness for C10: the comprehensive-assessment workflow created on an
empty registry has no tasks, and executing it behaves as claimed. -/
theorem empty_workflow_completes_witness :
    ∃ r, (executeWorkflow noAgentsState "workflow_50_0").1 = Except.ok r ∧
      r.status = "completed" ∧ r.agent_results = [] ∧
      r.aggregated_assessment.overall_status = "failed" ∧
      r.aggregated_assessment.message = some "No agents completed successfully" :=
  empty_workflow_completes noAgentsState "workflow_50_0"
    { id := "workflow_50_0", wtype := WorkflowType.comprehensive_assessment,
      tasks := [], status := "created" }
    rfl rfl

end Governance
